import Mathlib

/-!
Shallow embedding of the knowledge-point/chapter aggregation engine of the
DistributedSystem reviewer dashboard (the matching and aggregation logic of
the two front-end variants, `src/website/app.js` and `src/docs/app.js`).
JavaScript strings are modelled as lists of characters; optional record
fields are modelled with `Option` and an explicit field type for the
`knowledge_points` slot (absent, present-but-not-an-array, or an array).
-/

/-- JavaScript strings are modelled as lists of characters. -/
abbrev JStr := List Char

/-- A character of the JavaScript regex class `\w` = `[A-Za-z0-9_]`. -/
def isWordChar (c : Char) : Bool := c.isAlphanum || c = '_'

/-- A character of the JavaScript regex class `\s` (its ASCII part). -/
def isSpaceChar (c : Char) : Bool :=
  c = ' ' || c = '\t' || c = '\n' || c = '\r' || c = '\x0b' || c = '\x0c'

/-- JavaScript `String.prototype.trim`: drop leading and trailing whitespace. -/
def jsTrim (s : JStr) : JStr :=
  (((s.dropWhile isSpaceChar).reverse).dropWhile isSpaceChar).reverse

/-- The function `normalizeText` from `app.js`:
`text.toLowerCase().replace(/[^\w\s]/g, '').trim()`. -/
def normalizeText (s : JStr) : JStr :=
  jsTrim ((s.map Char.toLower).filter (fun c => isWordChar c || isSpaceChar c))

/-- Whether `p` is a prefix of `s` (Boolean, structural recursion). -/
def hasPrefixList : JStr → JStr → Bool
  | [], _ => true
  | _ :: _, [] => false
  | p :: ps, c :: cs => p == c && hasPrefixList ps cs

/-- JavaScript `hay.includes(pat)`: substring containment. -/
def containsSub : JStr → JStr → Bool
  | [], pat => pat.isEmpty
  | c :: t, pat => hasPrefixList pat (c :: t) || containsSub t pat

/-- The fixed text of the regex `/Chapter (\d+)/`. -/
def chapterPat : JStr := "Chapter ".data

/-- One global scan of `/Chapter (\d+)/g` over the text, fuelled by the
text length; returns the captured digit runs in discovery order. -/
def chapterScanAux : Nat → JStr → List JStr
  | 0, _ => []
  | _ + 1, [] => []
  | n + 1, c :: rest =>
    if hasPrefixList chapterPat (c :: rest) &&
        !(((c :: rest).drop 8).takeWhile Char.isDigit).isEmpty then
      ((c :: rest).drop 8).takeWhile Char.isDigit ::
        chapterScanAux n (((c :: rest).drop 8).dropWhile Char.isDigit)
    else chapterScanAux n rest

/-- All captured digit runs of `referText.match(/Chapter (\d+)/g)`,
in discovery order, duplicates included. -/
def chapterScan (s : JStr) : List JStr := chapterScanAux s.length s

/-- The captured digit run of the first match of `/Chapter (\d+)/`
(non-global `match`), if any. -/
def firstChapter (s : JStr) : Option JStr := (chapterScan s).head?

/-- The `knowledge_points` slot of a question record: absent (or another
falsy value), present but not an array, or an array of labels. -/
inductive KPField where
  | missing : KPField
  | notArray : KPField
  | arr : List JStr → KPField
deriving DecidableEq

/-- A question record, restricted to the fields the aggregation engine
reads: `type`, `refer` and `knowledge_points`. -/
structure Question where
  type : Option JStr
  refer : Option JStr
  knowledge_points : KPField
deriving DecidableEq

/-- A curriculum chapter record; `content` may be absent. -/
structure CurriculumChapter where
  chapterNumber : JStr
  chapterTitle : JStr
  content : Option (List JStr)
deriving DecidableEq

/-- The related-question test of `createTimeline`: false when
`knowledge_points` is absent or not an array, otherwise true when some
knowledge point and the content label contain each other (one direction
suffices) after normalization. -/
def isRelated (content : JStr) (q : Question) : Bool :=
  match q.knowledge_points with
  | KPField.arr kps =>
      kps.any (fun kp =>
        containsSub (normalizeText content) (normalizeText kp) ||
        containsSub (normalizeText kp) (normalizeText content))
  | _ => false

/-- The related-question set of one content label:
`questions.filter(...)` in `createTimeline`. -/
def relatedQuestions (content : JStr) (qs : List Question) : List Question :=
  qs.filter (fun q => isRelated content q)

/-- The timeline items: one entry per content item of each chapter whose
`content` is present and non-empty, carrying its related-question set. -/
def timelineItems (chaps : List CurriculumChapter) (qs : List Question) :
    List (JStr × List Question) :=
  chaps.flatMap (fun ch =>
    match ch.content with
    | none => []
    | some items =>
        if items.isEmpty then []
        else items.map (fun content => (content, relatedQuestions content qs)))

/-- The bucketing key of `createQuestionTypesChartLocally`:
`question.type || 'Unknown'` (absent and empty types fall back). -/
def typeKey (q : Question) : JStr :=
  match q.type with
  | none => "Unknown".data
  | some t => if t = [] then "Unknown".data else t

/-- The count `typeCounts[t]` of `createQuestionTypesChartLocally`. -/
def typeCounts (qs : List Question) (t : JStr) : Nat :=
  (qs.map typeKey).count t

/-- All chapter citations of one question's `refer`
(`createChapterImportanceChartLocally` inner loop), occurrences included. -/
def referChapters (q : Question) : List JStr :=
  match q.refer with
  | none => []
  | some r => chapterScan r

/-- The count `chapterCounts[ch]` of `createChapterImportanceChartLocally`: one
increment per occurrence of a `Chapter N` citation over all questions. -/
def chapterCounts (qs : List Question) (ch : JStr) : Nat :=
  (qs.flatMap referChapters).count ch

/-- The chapter key a question contributes to the heatmap
(`createKnowledgeHeatmapLocally` line:
`question.refer ? question.refer.match(/Chapter (\d+)/)?.[1] : 'Unknown'`);
an absent or empty `refer` yields the literal key `Unknown`, a `refer`
with no match yields the stringified key `undefined`. -/
def chapterKey (q : Question) : JStr :=
  match q.refer with
  | none => "Unknown".data
  | some r =>
      if r = [] then "Unknown".data
      else
        match firstChapter r with
        | some d => d
        | none => "undefined".data

/-- One question's contribution to the heatmap cell `(kp, ch)`:
`knowledgePoints[kp][chapter]++` once per occurrence of `kp` in the
question's `knowledge_points` array, under its single chapter key. -/
def heatmapContrib (kp ch : JStr) (q : Question) : Nat :=
  match q.knowledge_points with
  | KPField.arr kps => if chapterKey q = ch then kps.count kp else 0
  | _ => 0

/-- The heatmap cell `(kp, ch)` of `createKnowledgeHeatmapLocally`. -/
def heatmapCell (qs : List Question) (kp ch : JStr) : Nat :=
  (qs.map (heatmapContrib kp ch)).sum

/-- The expression `question.type?.toLowerCase() || ''` of
`createDifficultyDistributionChart`. -/
def typeLowerOrEmpty (q : Question) : JStr :=
  match q.type with
  | none => []
  | some t => t.map Char.toLower

/-- The difficulty classification of `createDifficultyDistributionChart`:
case-insensitive substring tests on the question's type. -/
def classifyDifficulty (q : Question) : JStr :=
  let t := typeLowerOrEmpty q
  if containsSub t "short".data || containsSub t "true".data ||
      containsSub t "multiple".data then "Easy".data
  else if containsSub t "essay".data || containsSub t "calculation".data then
    "Hard".data
  else "Medium".data

/-- The bucket count `difficultyLevels[lvl]` after the classification loop. -/
def difficultyCount (qs : List Question) (lvl : JStr) : Nat :=
  (qs.map classifyDifficulty).count lvl

/-- The statistic `totalQuestions` of `generateStatsLocally`. -/
def totalQuestions (qs : List Question) : Nat := qs.length

/-- The statistic `uniqueTypes` of `generateStatsLocally`:
`new Set(questions.map(q => q.type)).size` — the raw `type` values,
including the absent marker when some question lacks a type. -/
def uniqueTypes (qs : List Question) : Nat :=
  (qs.map Question.type).toFinset.card

/-- The knowledge-point labels of one question (empty when the
`knowledge_points` slot is absent or not an array). -/
def kpsOf (q : Question) : List JStr :=
  match q.knowledge_points with
  | KPField.arr kps => kps
  | _ => []

/-- The statistic `uniqueKnowledgePoints` of `generateStatsLocally`. -/
def uniqueKnowledgePoints (qs : List Question) : Nat :=
  (qs.flatMap kpsOf).toFinset.card

/-- The statistic `chaptersCovered` of `generateStatsLocally`: distinct chapter
citations over all questions. -/
def chaptersCovered (qs : List Question) : Nat :=
  (qs.flatMap referChapters).toFinset.card

/-- The Chapter Resolver as a set: the deduplicated chapter citations of
one (possibly absent) `refer` text. -/
def extractChapters : Option JStr → Finset JStr
  | none => ∅
  | some r => (chapterScan r).toFinset

/-- Modelled from the spec (for comparison with `uniqueTypes`): the number
of distinct `type` values present, a question with an absent type being
excluded from the distinct set. -/
def distinctPresentTypes (qs : List Question) : Nat :=
  (qs.filterMap Question.type).toFinset.card

/-- Modelled from the spec (for comparison with `extractChapters`): the
text cites chapter `d` when `d` is a non-empty digit run, the text
contains `Chapter ` immediately followed by `d`, and `d` is maximal
(not followed by a further digit). -/
def ChapterCite (s d : JStr) : Prop :=
  d ≠ [] ∧ (∀ c ∈ d, c.isDigit) ∧
    ∃ a b, s = a ++ chapterPat ++ d ++ b ∧
      ∀ c, b.head? = some c → c.isDigit = false

/-! ### Bridge lemmas for the Boolean string primitives -/

theorem hasPrefixList_iff (p s : JStr) :
    hasPrefixList p s = true ↔ ∃ t, s = p ++ t := by
  induction p generalizing s with
  | nil => simp [hasPrefixList]
  | cons a ps ih =>
    cases s with
    | nil =>
      simp [hasPrefixList]
    | cons c cs =>
      simp only [hasPrefixList, Bool.and_eq_true, beq_iff_eq, ih, List.cons_append,
        List.cons.injEq]
      constructor
      · rintro ⟨rfl, t, rfl⟩; exact ⟨t, rfl, rfl⟩
      · rintro ⟨t, rfl, rfl⟩; exact ⟨rfl, t, rfl⟩

theorem containsSub_iff (hay pat : JStr) :
    containsSub hay pat = true ↔ ∃ a b, hay = a ++ pat ++ b := by
  induction hay with
  | nil =>
    simp only [containsSub, List.isEmpty_iff]
    constructor
    · rintro rfl; exact ⟨[], [], rfl⟩
    · rintro ⟨a, b, h⟩
      rcases List.append_eq_nil.1 h.symm with ⟨h1, h2⟩
      rcases List.append_eq_nil.1 h1 with ⟨-, h3⟩
      exact h3
  | cons c t ih =>
    simp only [containsSub, Bool.or_eq_true, hasPrefixList_iff, ih]
    constructor
    · rintro (⟨u, hu⟩ | ⟨a, b, rfl⟩)
      · exact ⟨[], u, by simpa using hu⟩
      · exact ⟨c :: a, b, rfl⟩
    · rintro ⟨a, b, h⟩
      cases a with
      | nil => exact Or.inl ⟨b, by simpa using h⟩
      | cons x a =>
        simp only [List.cons_append, List.cons.injEq] at h
        exact Or.inr ⟨a, b, h.2⟩

theorem dropWhile_head?_false {α : Type} {p : α → Bool} {l : List α} {c : α}
    (h : (l.dropWhile p).head? = some c) : p c = false := by
  have h2 := List.head?_dropWhile_not p l
  rw [h] at h2
  exact h2

theorem takeWhile_append_eq {α : Type} {p : α → Bool} {d b : List α}
    (hd : ∀ c ∈ d, p c = true) (hb : ∀ c, b.head? = some c → p c = false) :
    (d ++ b).takeWhile p = d ∧ (d ++ b).dropWhile p = b := by
  have hbt : b.takeWhile p = [] := by
    cases b with
    | nil => rfl
    | cons x xs =>
      have := hb x rfl
      simp [List.takeWhile_cons, this]
  have hbd : b.dropWhile p = b := by
    cases b with
    | nil => rfl
    | cons x xs =>
      have := hb x rfl
      simp [List.dropWhile_cons, this]
  constructor
  · rw [List.takeWhile_append_of_pos hd, hbt, List.append_nil]
  · rw [List.dropWhile_append_of_pos hd, hbd]

theorem isDigit_ne_of_upper {c : Char} (h : c.isDigit = true) : c ≠ 'C' := by
  intro hc
  subst hc
  simp [Char.isDigit] at h

theorem prefix_of_no_head_char {x : Char} {u : JStr} :
    ∀ {a r w : JStr}, (∀ c ∈ u, c ≠ x) → u ++ r = a ++ x :: w →
      ∃ t, a = u ++ t := by
  induction u with
  | nil => exact fun _ _ => ⟨_, rfl⟩
  | cons d u' ih =>
    intro a r w hu h
    cases a with
    | nil =>
      simp only [List.nil_append, List.cons_append, List.cons.injEq] at h
      exact absurd h.1 (hu d (by simp))
    | cons y a' =>
      simp only [List.cons_append, List.cons.injEq] at h
      obtain ⟨t, rfl⟩ := ih (fun c hc => hu c (by simp [hc])) h.2
      exact ⟨t, by rw [h.1, List.cons_append]⟩

theorem chapterPat_eq : chapterPat = 'C' :: "hapter ".data := rfl

theorem chapterPat_length : chapterPat.length = 8 := rfl

theorem chapterScanAux_sound : ∀ {n : Nat} {s d : JStr},
    d ∈ chapterScanAux n s → ChapterCite s d := by
  intro n
  induction n with
  | zero => intro s d h; simp [chapterScanAux] at h
  | succ n ih =>
    intro s d h
    cases s with
    | nil => simp [chapterScanAux] at h
    | cons c rest =>
      rw [chapterScanAux] at h
      split at h
      case isTrue hcond =>
        rw [Bool.and_eq_true] at hcond
        obtain ⟨hpre, hne⟩ := hcond
        obtain ⟨t, hs⟩ := (hasPrefixList_iff _ _).1 hpre
        have hdrop : (c :: rest).drop 8 = t := by
          rw [hs, ← chapterPat_length, List.drop_left]
        rw [hdrop] at h hne
        rw [List.mem_cons] at h
        have htsplit := List.takeWhile_append_dropWhile (p := Char.isDigit) (l := t)
        rcases h with rfl | h
        · refine ⟨?_, ?_, [], t.dropWhile Char.isDigit, ?_, ?_⟩
          · intro hnil
            rw [hnil] at hne
            simp at hne
          · intro x hx
            exact List.mem_takeWhile_imp hx
          · rw [hs, List.nil_append, List.append_assoc, htsplit]
          · intro x hx
            exact dropWhile_head?_false hx
        · obtain ⟨hd1, hd2, a, b, hsplit, hb⟩ := ih h
          refine ⟨hd1, hd2, chapterPat ++ t.takeWhile Char.isDigit ++ a, b, ?_, hb⟩
          rw [hs]
          conv_lhs => rw [← htsplit, hsplit]
          simp [List.append_assoc]
      case isFalse hcond =>
        obtain ⟨hd1, hd2, a, b, hsplit, hb⟩ := ih h
        exact ⟨hd1, hd2, c :: a, b, by rw [hsplit]; rfl, hb⟩

theorem chapterScanAux_head_match (n : Nat) (t : JStr)
    (hne : t.takeWhile Char.isDigit ≠ []) :
    chapterScanAux (n + 1) (chapterPat ++ t) =
      t.takeWhile Char.isDigit :: chapterScanAux n (t.dropWhile Char.isDigit) := by
  have h1 : chapterPat ++ t = 'C' :: ("hapter ".data ++ t) := rfl
  have hdrop : ('C' :: ("hapter ".data ++ t)).drop 8 = t := by
    rw [← h1, ← chapterPat_length, List.drop_left]
  rw [h1, chapterScanAux, hdrop]
  have hcond : (hasPrefixList chapterPat ('C' :: ("hapter ".data ++ t)) &&
      !(t.takeWhile Char.isDigit).isEmpty) = true := by
    rw [Bool.and_eq_true]
    refine ⟨(hasPrefixList_iff _ _).2 ⟨t, h1⟩, ?_⟩
    simpa [List.isEmpty_iff] using hne
  rw [if_pos hcond]

theorem chapterScanAux_complete : ∀ {n : Nat} {s d : JStr},
    s.length ≤ n → ChapterCite s d → d ∈ chapterScanAux n s := by
  intro n
  induction n with
  | zero =>
    intro s d hn hc
    obtain ⟨hd1, hd2, a, b, hsplit, hb⟩ := hc
    subst hsplit
    simp [chapterPat] at hn
  | succ n ih =>
    intro s d hn hc
    obtain ⟨hd1, hd2, a, b, hsplit, hb⟩ := hc
    have htd : (d ++ b).takeWhile Char.isDigit = d :=
      (takeWhile_append_eq hd2 hb).1
    have hdd : (d ++ b).dropWhile Char.isDigit = b :=
      (takeWhile_append_eq hd2 hb).2
    simp only [List.append_assoc] at hsplit
    cases a with
    | nil =>
      rw [List.nil_append] at hsplit
      subst hsplit
      rw [chapterScanAux_head_match n (d ++ b) (by rw [htd]; exact hd1), htd]
      exact List.mem_cons_self _ _
    | cons x a' =>
      subst hsplit
      rw [List.cons_append, chapterScanAux]
      split
      case isTrue hcond =>
        rw [Bool.and_eq_true] at hcond
        obtain ⟨hpre, hne⟩ := hcond
        obtain ⟨t, hs⟩ := (hasPrefixList_iff _ _).1 hpre
        have hdrop : (x :: (a' ++ (chapterPat ++ (d ++ b)))).drop 8 = t := by
          rw [hs, ← chapterPat_length, List.drop_left]
        rw [hdrop] at hne ⊢
        -- the head match cannot overlap the cited occurrence: no later char
        -- of `Chapter N` is the letter C
        have hx : x = 'C' := by
          have := congrArg (List.head? ·) hs
          simpa [chapterPat_eq] using this
        have htail : a' ++ (chapterPat ++ (d ++ b)) = "hapter ".data ++ t := by
          have := congrArg List.tail hs
          simpa [chapterPat_eq] using this
        have htsplit := List.takeWhile_append_dropWhile (p := Char.isDigit) (l := t)
        have hp7 : ∀ c ∈ ("hapter ".data : List Char), c ≠ 'C' := by decide
        have hnoc : ∀ c ∈ "hapter ".data ++ t.takeWhile Char.isDigit, c ≠ 'C' := by
          intro c hc
          rcases List.mem_append.1 hc with hc | hc
          · exact hp7 c hc
          · exact isDigit_ne_of_upper (List.mem_takeWhile_imp hc)
        have hkey : "hapter ".data ++ t.takeWhile Char.isDigit ++
            t.dropWhile Char.isDigit = a' ++ ('C' :: ("hapter ".data ++ (d ++ b))) := by
          rw [List.append_assoc, htsplit, ← htail, chapterPat_eq]
          simp
        obtain ⟨t2, ht2⟩ := prefix_of_no_head_char hnoc hkey
        have hkey2 : "hapter ".data ++ (t.takeWhile Char.isDigit ++
              t.dropWhile Char.isDigit) =
            "hapter ".data ++ (t.takeWhile Char.isDigit ++
              (t2 ++ ('C' :: ("hapter ".data ++ (d ++ b))))) := by
          rw [ht2] at hkey
          simpa [List.append_assoc] using hkey
        have hr2 : t.dropWhile Char.isDigit =
            t2 ++ (chapterPat ++ (d ++ b)) := by
          rw [List.append_cancel_left (List.append_cancel_left hkey2), chapterPat_eq]
          simp
        refine List.mem_cons_of_mem _ (ih ?_ ⟨hd1, hd2, t2, b, by rw [hr2]; simp, hb⟩)
        -- fuel bound: the match consumed at least nine characters
        have h8 : chapterPat.length = 8 := rfl
        have hlen1 := congrArg List.length hs
        rw [List.length_append, h8] at hlen1
        have hlen2 := congrArg List.length htsplit
        rw [List.length_append] at hlen2
        have hpos : 0 < (t.takeWhile Char.isDigit).length :=
          List.length_pos.2 (by simpa [List.isEmpty_iff] using hne)
        rw [List.cons_append, hlen1] at hn
        omega
      case isFalse =>
        refine ih ?_ ⟨hd1, hd2, a', b, by simp, hb⟩
        simp only [List.cons_append, List.length_cons] at hn
        omega

theorem mem_chapterScan {s d : JStr} : d ∈ chapterScan s ↔ ChapterCite s d :=
  ⟨chapterScanAux_sound, chapterScanAux_complete (Nat.le_refl _)⟩

/-! ### Helper lemmas for the aggregates -/

theorem classifyDifficulty_cases (q : Question) :
    classifyDifficulty q = "Easy".data ∨ classifyDifficulty q = "Hard".data ∨
      classifyDifficulty q = "Medium".data := by
  unfold classifyDifficulty
  dsimp only
  split
  · exact Or.inl rfl
  · split
    · exact Or.inr (Or.inl rfl)
    · exact Or.inr (Or.inr rfl)

theorem toFinset_card_option {α : Type} [DecidableEq α] (l : List (Option α)) :
    l.toFinset.card = (l.filterMap id).toFinset.card +
      (if none ∈ l then 1 else 0) := by
  induction l with
  | nil => rfl
  | cons o t ih =>
    cases o with
    | none =>
      by_cases hn : (none : Option α) ∈ t
      · have h1 : (none :: t).toFinset = t.toFinset := by
          simp [List.toFinset_cons, Finset.insert_eq_self, hn]
        rw [h1, ih]
        simp [hn]
      · rw [List.toFinset_cons,
          Finset.card_insert_of_not_mem (by simpa using hn), ih]
        simp [hn]
    | some a =>
      have hfm : ((some a :: t).filterMap id) = a :: t.filterMap id := by
        simp [List.filterMap_cons]
      by_cases ha : some a ∈ t
      · have h1 : (some a :: t).toFinset = t.toFinset := by
          simp [List.toFinset_cons, Finset.insert_eq_self, ha]
        have h2 : (a :: t.filterMap id).toFinset = (t.filterMap id).toFinset := by
          rw [List.toFinset_cons, Finset.insert_eq_self, List.mem_toFinset,
            List.mem_filterMap]
          exact ⟨some a, ha, rfl⟩
        rw [h1, hfm, h2, ih]
        simp
      · have hb : a ∉ (t.filterMap id).toFinset := by
          rw [List.mem_toFinset, List.mem_filterMap]
          rintro ⟨x, hx, rfl⟩
          exact ha hx
        rw [List.toFinset_cons,
          Finset.card_insert_of_not_mem (by simpa using ha), ih, hfm,
          List.toFinset_cons, Finset.card_insert_of_not_mem hb]
        simp only [List.mem_cons, reduceCtorEq, false_or]
        omega

theorem dropWhile_eq_nil_of_all {α : Type} {p : α → Bool} {l : List α}
    (h : ∀ c ∈ l, p c = true) : l.dropWhile p = [] := by
  induction l with
  | nil => rfl
  | cons x t ih =>
    rw [List.dropWhile_cons_of_pos (h x (by simp))]
    exact ih (fun c hc => h c (by simp [hc]))

theorem jsTrim_head?_not_space {l : JStr} {c : Char}
    (h : (jsTrim l).head? = some c) : isSpaceChar c = false := by
  unfold jsTrim at h
  rw [List.head?_reverse] at h
  have hsplit := List.takeWhile_append_dropWhile
    (p := isSpaceChar) (l := (l.dropWhile isSpaceChar).reverse)
  have h0 : ((l.dropWhile isSpaceChar).reverse).getLast? = some c := by
    rw [← hsplit, List.getLast?_append, h]
    rfl
  rw [List.getLast?_reverse] at h0
  exact dropWhile_head?_false h0

theorem jsTrim_getLast?_not_space {l : JStr} {c : Char}
    (h : (jsTrim l).getLast? = some c) : isSpaceChar c = false := by
  unfold jsTrim at h
  rw [List.getLast?_reverse] at h
  exact dropWhile_head?_false h

theorem mem_jsTrim {l : JStr} {c : Char} (h : c ∈ jsTrim l) : c ∈ l := by
  unfold jsTrim at h
  rw [List.mem_reverse] at h
  have h1 := (List.dropWhile_sublist
    (l := (l.dropWhile isSpaceChar).reverse) (p := isSpaceChar)).mem h
  rw [List.mem_reverse] at h1
  exact (List.dropWhile_sublist (l := l) (p := isSpaceChar)).mem h1

theorem count_eq_one_of_nodup_mem {l : List JStr} {x : JStr}
    (hnd : l.Nodup) (hx : x ∈ l) : l.count x = 1 := by
  induction l with
  | nil => simp at hx
  | cons a t ih =>
    rw [List.count_cons]
    rcases List.mem_cons.1 hx with rfl | hxt
    · have hnotin : x ∉ t := (List.nodup_cons.1 hnd).1
      rw [List.count_eq_zero.2 hnotin]
      simp
    · have hsplit := List.nodup_cons.1 hnd
      rw [ih hsplit.2 hxt]
      have hne : ¬ a = x := by
        intro hcontra
        subst hcontra
        exact hsplit.1 hxt
      have hne2 : ¬ x = a := fun hh => hne hh.symm
      simp [hne, hne2]

theorem perm_count_eq {α : Type} [BEq α] {l1 l2 : List α}
    (h : l1.Perm l2) (x : α) : l1.count x = l2.count x := by
  rw [List.count_eq_countP, List.count_eq_countP]
  exact h.countP_eq _

/-! ### Claim theorems -/

/-- Claim C7: `normalizeText` lowercases, keeps only word characters and
whitespace, and trims: on `" Two-Phase Commit! "` it yields
`"twophase commit"`; every whitespace-only (or empty) input normalizes to
the empty string; every output character is a word character or
whitespace; the output neither starts nor ends with whitespace. -/
theorem c7_normalizeText_spec :
    normalizeText " Two-Phase Commit! ".data = "twophase commit".data ∧
    (∀ s : JStr, (∀ c ∈ s, isSpaceChar c = true) → normalizeText s = []) ∧
    (∀ s : JStr, ∀ c ∈ normalizeText s, (isWordChar c || isSpaceChar c) = true) ∧
    (∀ s : JStr, ∀ c, (normalizeText s).head? = some c → isSpaceChar c = false) ∧
    (∀ s : JStr, ∀ c, (normalizeText s).getLast? = some c →
      isSpaceChar c = false) := by
  refine ⟨by decide, ?_, ?_, ?_, ?_⟩
  · intro s hs
    have hmap : ∀ c ∈ s.map Char.toLower, isSpaceChar c = true := by
      intro c hc
      rw [List.mem_map] at hc
      obtain ⟨x, hx, rfl⟩ := hc
      have hxs := hs x hx
      have hxcases : ((((x = ' ' ∨ x = '\t') ∨ x = '\n') ∨ x = '\x0d') ∨
          x = '\x0b') ∨ x = '\x0c' := by
        simpa [isSpaceChar] using hxs
      rcases hxcases with ((((rfl | rfl) | rfl) | rfl) | rfl) | rfl <;> decide
    have hfil : ∀ c ∈ (s.map Char.toLower).filter
        (fun c => isWordChar c || isSpaceChar c), isSpaceChar c = true :=
      fun c hc => hmap c (List.mem_of_mem_filter hc)
    unfold normalizeText jsTrim
    rw [dropWhile_eq_nil_of_all hfil]
    rfl
  · intro s c hc
    unfold normalizeText at hc
    have h1 := mem_jsTrim hc
    exact (List.mem_filter.1 h1).2
  · intro s c h
    exact jsTrim_head?_not_space h
  · intro s c h
    exact jsTrim_getLast?_not_space h

theorem c7_normalizeText_spec_witness :
    normalizeText "   ".data = [] :=
  c7_normalizeText_spec.2.1 "   ".data (by decide)

/-- Claim C10: the `Unknown` difficulty bucket is always empty: the
classification's final else branch assigns `Medium`, so every question —
including one whose type is absent or literally `Unknown` — lands in
`Easy`, `Medium` or `Hard`. -/
theorem c10_unknown_bucket_empty (qs : List Question) :
    difficultyCount qs "Unknown".data = 0 ∧
    classifyDifficulty
      { type := some "Unknown".data, refer := none,
        knowledge_points := KPField.missing } = "Medium".data := by
  constructor
  · rw [difficultyCount, List.count_eq_zero]
    intro hmem
    rw [List.mem_map] at hmem
    obtain ⟨q, -, hq⟩ := hmem
    rcases classifyDifficulty_cases q with h | h | h <;>
      rw [h] at hq <;> revert hq <;> decide
  · decide

/-- Claim C8: difficulty is a pure function of the question's type under
case-insensitive substring tests — short/true/multiple gives Easy,
otherwise essay/calculation gives Hard, otherwise Medium — and
consequently Multiple Choice is Easy, Essay Question is Hard,
Programming is Medium, and an absent type is Medium. -/
theorem c8_difficulty_classification (q : Question) :
    (classifyDifficulty q = "Easy".data ↔
      (containsSub (typeLowerOrEmpty q) "short".data = true ∨
       containsSub (typeLowerOrEmpty q) "true".data = true ∨
       containsSub (typeLowerOrEmpty q) "multiple".data = true)) ∧
    (classifyDifficulty q = "Hard".data ↔
      (¬(containsSub (typeLowerOrEmpty q) "short".data = true ∨
         containsSub (typeLowerOrEmpty q) "true".data = true ∨
         containsSub (typeLowerOrEmpty q) "multiple".data = true) ∧
       (containsSub (typeLowerOrEmpty q) "essay".data = true ∨
        containsSub (typeLowerOrEmpty q) "calculation".data = true))) ∧
    (q.type = some "Multiple Choice".data → classifyDifficulty q = "Easy".data) ∧
    (q.type = some "Essay Question".data → classifyDifficulty q = "Hard".data) ∧
    (q.type = some "Programming".data → classifyDifficulty q = "Medium".data) ∧
    (q.type = none → classifyDifficulty q = "Medium".data) := by
  have heq : classifyDifficulty q =
      if (containsSub (typeLowerOrEmpty q) "short".data ||
          containsSub (typeLowerOrEmpty q) "true".data ||
          containsSub (typeLowerOrEmpty q) "multiple".data) = true then "Easy".data
      else if (containsSub (typeLowerOrEmpty q) "essay".data ||
          containsSub (typeLowerOrEmpty q) "calculation".data) = true then
        "Hard".data
      else "Medium".data := rfl
  by_cases hE : (containsSub (typeLowerOrEmpty q) "short".data = true ∨
      containsSub (typeLowerOrEmpty q) "true".data = true ∨
      containsSub (typeLowerOrEmpty q) "multiple".data = true)
  · have hb : (containsSub (typeLowerOrEmpty q) "short".data ||
        containsSub (typeLowerOrEmpty q) "true".data ||
        containsSub (typeLowerOrEmpty q) "multiple".data) = true := by
      simp only [Bool.or_eq_true]
      tauto
    have hcd : classifyDifficulty q = "Easy".data := by rw [heq, if_pos hb]
    refine ⟨⟨fun _ => hE, fun _ => hcd⟩, ?_, fun _ => hcd, ?_, ?_, ?_⟩
    · constructor
      · intro hcontra
        rw [hcd] at hcontra
        exact absurd hcontra (by decide)
      · rintro ⟨hno, -⟩
        exact absurd hE hno
    · intro h
      exfalso
      have htl : typeLowerOrEmpty q = "essay question".data := by
        unfold typeLowerOrEmpty
        rw [h]
        decide
      rcases hE with he | he | he <;> rw [htl] at he <;>
        exact absurd he (by decide)
    · intro h
      exfalso
      have htl : typeLowerOrEmpty q = "programming".data := by
        unfold typeLowerOrEmpty
        rw [h]
        decide
      rcases hE with he | he | he <;> rw [htl] at he <;>
        exact absurd he (by decide)
    · intro h
      exfalso
      have htl : typeLowerOrEmpty q = [] := by
        unfold typeLowerOrEmpty
        rw [h]
      rcases hE with he | he | he <;> rw [htl] at he <;>
        exact absurd he (by decide)
  · have hbn : ¬((containsSub (typeLowerOrEmpty q) "short".data ||
        containsSub (typeLowerOrEmpty q) "true".data ||
        containsSub (typeLowerOrEmpty q) "multiple".data) = true) := by
      simp only [Bool.or_eq_true]
      tauto
    by_cases hH : (containsSub (typeLowerOrEmpty q) "essay".data = true ∨
        containsSub (typeLowerOrEmpty q) "calculation".data = true)
    · have hb2 : (containsSub (typeLowerOrEmpty q) "essay".data ||
          containsSub (typeLowerOrEmpty q) "calculation".data) = true := by
        simp only [Bool.or_eq_true]
        tauto
      have hcd : classifyDifficulty q = "Hard".data := by
        rw [heq, if_neg hbn, if_pos hb2]
      refine ⟨?_, ⟨fun _ => ⟨hE, hH⟩, fun _ => hcd⟩, ?_, fun _ => hcd, ?_, ?_⟩
      · constructor
        · intro hcontra
          rw [hcd] at hcontra
          exact absurd hcontra (by decide)
        · intro hor
          exact absurd hor hE
      · intro h
        exfalso
        apply hE
        have htl : typeLowerOrEmpty q = "multiple choice".data := by
          unfold typeLowerOrEmpty
          rw [h]
          decide
        rw [htl]
        right; right; decide
      · intro h
        exfalso
        have htl : typeLowerOrEmpty q = "programming".data := by
          unfold typeLowerOrEmpty
          rw [h]
          decide
        rcases hH with hh | hh <;> rw [htl] at hh <;>
          exact absurd hh (by decide)
      · intro h
        exfalso
        have htl : typeLowerOrEmpty q = [] := by
          unfold typeLowerOrEmpty
          rw [h]
        rcases hH with hh | hh <;> rw [htl] at hh <;>
          exact absurd hh (by decide)
    · have hbn2 : ¬((containsSub (typeLowerOrEmpty q) "essay".data ||
          containsSub (typeLowerOrEmpty q) "calculation".data) = true) := by
        simp only [Bool.or_eq_true]
        tauto
      have hcd : classifyDifficulty q = "Medium".data := by
        rw [heq, if_neg hbn, if_neg hbn2]
      refine ⟨?_, ?_, ?_, ?_, fun _ => hcd, fun _ => hcd⟩
      · constructor
        · intro hcontra
          rw [hcd] at hcontra
          exact absurd hcontra (by decide)
        · intro hor
          exact absurd hor hE
      · constructor
        · intro hcontra
          rw [hcd] at hcontra
          exact absurd hcontra (by decide)
        · rintro ⟨-, hor⟩
          exact absurd hor hH
      · intro h
        exfalso
        apply hE
        have htl : typeLowerOrEmpty q = "multiple choice".data := by
          unfold typeLowerOrEmpty
          rw [h]
          decide
        rw [htl]
        right; right; decide
      · intro h
        exfalso
        apply hH
        have htl : typeLowerOrEmpty q = "essay question".data := by
          unfold typeLowerOrEmpty
          rw [h]
          decide
        rw [htl]
        left; decide

theorem c8_difficulty_classification_witness :
    classifyDifficulty
      { type := some "Multiple Choice".data, refer := none,
        knowledge_points := KPField.missing } = "Easy".data ∧
    classifyDifficulty
      { type := some "Essay Question".data, refer := none,
        knowledge_points := KPField.missing } = "Hard".data ∧
    classifyDifficulty
      { type := some "Programming".data, refer := none,
        knowledge_points := KPField.missing } = "Medium".data ∧
    classifyDifficulty
      { type := none, refer := none,
        knowledge_points := KPField.missing } = "Medium".data :=
  ⟨(c8_difficulty_classification _).2.2.1 rfl,
   (c8_difficulty_classification _).2.2.2.1 rfl,
   (c8_difficulty_classification _).2.2.2.2.1 rfl,
   (c8_difficulty_classification _).2.2.2.2.2 rfl⟩

/-- Claim C5: `isRelated` returns false when the knowledge-points field is
absent or not an array, and otherwise returns true exactly when some
knowledge point and the content label contain one another as substrings
after normalization (in either direction). -/
theorem c5_isRelated_characterization (content : JStr) (q : Question) :
    ((q.knowledge_points = KPField.missing ∨
      q.knowledge_points = KPField.notArray) → isRelated content q = false) ∧
    (∀ kps, q.knowledge_points = KPField.arr kps →
      (isRelated content q = true ↔ ∃ kp ∈ kps,
        (∃ a b, normalizeText content = a ++ normalizeText kp ++ b) ∨
        (∃ a b, normalizeText kp = a ++ normalizeText content ++ b))) := by
  constructor
  · rintro (h | h) <;> rw [isRelated, h]
  · intro kps h
    rw [isRelated, h]
    show kps.any _ = true ↔ _
    rw [List.any_eq_true]
    constructor
    · rintro ⟨kp, hkp, hor⟩
      rw [Bool.or_eq_true] at hor
      refine ⟨kp, hkp, ?_⟩
      rcases hor with hc | hc
      · exact Or.inl ((containsSub_iff _ _).1 hc)
      · exact Or.inr ((containsSub_iff _ _).1 hc)
    · rintro ⟨kp, hkp, hor⟩
      refine ⟨kp, hkp, ?_⟩
      rw [Bool.or_eq_true]
      rcases hor with hc | hc
      · exact Or.inl ((containsSub_iff _ _).2 hc)
      · exact Or.inr ((containsSub_iff _ _).2 hc)

theorem c5_isRelated_characterization_witness :
    isRelated "Two-Phase Commit".data
      { type := none, refer := none,
        knowledge_points := KPField.missing } = false ∧
    isRelated "Two-Phase Commit".data
      { type := none, refer := none,
        knowledge_points := KPField.arr ["Commit!".data] } = true :=
  ⟨(c5_isRelated_characterization "Two-Phase Commit".data _).1 (Or.inl rfl),
   ((c5_isRelated_characterization "Two-Phase Commit".data _).2 _ rfl).2
     ⟨"Commit!".data, by decide,
      Or.inl ⟨"twophase ".data, [], by decide⟩⟩⟩

/-- Claim C6: the Chapter Resolver returns the empty set for absent or
empty `refer` text, and in general exactly the deduplicated set of
maximal digit runs following the literal text `Chapter `; on
`"Chapter 3 and Chapter 3 again"` it returns the singleton {"3"},
independently of discovery order. -/
theorem c6_extractChapters_characterization :
    extractChapters none = ∅ ∧
    extractChapters (some []) = ∅ ∧
    (∀ r d, d ∈ extractChapters (some r) ↔ ChapterCite r d) ∧
    extractChapters (some "Chapter 3 and Chapter 3 again".data) =
      {"3".data} := by
  refine ⟨rfl, rfl, ?_, by decide⟩
  intro r d
  show d ∈ (chapterScan r).toFinset ↔ _
  rw [List.mem_toFinset]
  exact mem_chapterScan

theorem c6_extractChapters_characterization_witness :
    "3".data ∈ extractChapters (some "Chapter 3".data) :=
  (c6_extractChapters_characterization.2.2.1 "Chapter 3".data "3".data).2
    ⟨by decide, by decide, [], [], by decide, fun c hc => by simp at hc⟩

/-- Claim C4 (corrected): `uniqueTypes` is computed as
`new Set(questions.map(q => q.type)).size`, which does NOT exclude absent
types — the absent marker is one further distinct value whenever some
question lacks a type. -/
theorem c4_uniqueTypes_amended (qs : List Question) :
    uniqueTypes qs = distinctPresentTypes qs +
      (if none ∈ qs.map Question.type then 1 else 0) := by
  have hfm : (qs.map Question.type).filterMap id = qs.filterMap Question.type := by
    rw [List.filterMap_map]
    rfl
  rw [uniqueTypes, toFinset_card_option, hfm, distinctPresentTypes]
  by_cases hn : none ∈ qs.map Question.type
  · rw [if_pos hn, if_pos hn]
  · rw [if_neg hn, if_neg hn]

theorem c4_uniqueTypes_counterexample :
    uniqueTypes
      [{ type := some "Essay".data, refer := none,
         knowledge_points := KPField.missing },
       { type := none, refer := none,
         knowledge_points := KPField.missing }] = 2 ∧
    distinctPresentTypes
      [{ type := some "Essay".data, refer := none,
         knowledge_points := KPField.missing },
       { type := none, refer := none,
         knowledge_points := KPField.missing }] = 1 := by decide

/-- Claim C2 (corrected): `chapterCounts` increments once per occurrence
of a `Chapter N` citation — duplicates in one `refer` are NOT
deduplicated; when the citation list of a question happens to be
duplicate-free, each cited chapter is incremented exactly once. -/
theorem c2_chapterCounts_per_occurrence (qs : List Question) (q : Question)
    (r : JStr) (ch : JStr) (hr : q.refer = some r) :
    chapterCounts (q :: qs) ch =
      (chapterScan r).count ch + chapterCounts qs ch ∧
    ((chapterScan r).Nodup → ch ∈ chapterScan r →
      (chapterScan r).count ch = 1) := by
  constructor
  · rw [chapterCounts, List.flatMap_cons, List.count_append, chapterCounts]
    congr 1
    rw [referChapters, hr]
  · exact fun hnd hmem => count_eq_one_of_nodup_mem hnd hmem

theorem c2_chapterCounts_per_occurrence_witness :
    chapterCounts
      [{ type := none, refer := some "Chapter 1, Chapter 2".data,
         knowledge_points := KPField.missing }] "1".data =
      (chapterScan "Chapter 1, Chapter 2".data).count "1".data +
        chapterCounts [] "1".data ∧
    (chapterScan "Chapter 1, Chapter 2".data).count "1".data = 1 := by
  have h := c2_chapterCounts_per_occurrence []
    { type := none, refer := some "Chapter 1, Chapter 2".data,
      knowledge_points := KPField.missing }
    "Chapter 1, Chapter 2".data "1".data rfl
  exact ⟨h.1, h.2 (by decide) (by decide)⟩

theorem c2_chapterCounts_counterexample :
    chapterCounts
      [{ type := none,
         refer := some "Chapter 3 and Chapter 3 again".data,
         knowledge_points := KPField.missing }] "3".data = 2 := by decide

/-- Claim C1 (corrected): the local heatmap pairs every knowledge point
with only the FIRST chapter extracted from the question's `refer` (the
non-global regex match): with first chapter `d`, a question adds its
knowledge-point occurrences to the cell under `d` and nothing to any
other chapter's cell. -/
theorem c1_heatmap_first_chapter_only (qs : List Question) (q : Question)
    (kps : List JStr) (r d kp ch : JStr)
    (hk : q.knowledge_points = KPField.arr kps) (hr : q.refer = some r)
    (hne : ¬ r = []) (hd : firstChapter r = some d) :
    heatmapCell (q :: qs) kp ch =
      (if d = ch then kps.count kp else 0) + heatmapCell qs kp ch := by
  have hck : chapterKey q = d := by
    rw [chapterKey, hr]
    show (if r = [] then _ else _) = d
    rw [if_neg hne, hd]
  rw [heatmapCell, List.map_cons, List.sum_cons]
  congr 1
  rw [heatmapContrib, hk]
  show (if chapterKey q = ch then kps.count kp else 0) = _
  rw [hck]

theorem c1_heatmap_first_chapter_only_witness :
    heatmapCell
      [{ type := none, refer := some "Chapter 1, Chapter 2".data,
         knowledge_points := KPField.arr ["K1".data, "K2".data] }]
      "K1".data "2".data =
      (if ("1".data : JStr) = "2".data
        then (["K1".data, "K2".data] : List JStr).count "K1".data else 0) +
        heatmapCell [] "K1".data "2".data :=
  c1_heatmap_first_chapter_only []
    { type := none, refer := some "Chapter 1, Chapter 2".data,
      knowledge_points := KPField.arr ["K1".data, "K2".data] }
    ["K1".data, "K2".data] "Chapter 1, Chapter 2".data "1".data
    "K1".data "2".data rfl rfl (by decide) (by decide)

theorem c1_heatmap_counterexample :
    heatmapCell
      [{ type := none, refer := some "Chapter 1, Chapter 2".data,
         knowledge_points := KPField.arr ["K1".data, "K2".data] }]
      "K1".data "1".data = 1 ∧
    heatmapCell
      [{ type := none, refer := some "Chapter 1, Chapter 2".data,
         knowledge_points := KPField.arr ["K1".data, "K2".data] }]
      "K2".data "1".data = 1 ∧
    heatmapCell
      [{ type := none, refer := some "Chapter 1, Chapter 2".data,
         knowledge_points := KPField.arr ["K1".data, "K2".data] }]
      "K1".data "2".data = 0 ∧
    heatmapCell
      [{ type := none, refer := some "Chapter 1, Chapter 2".data,
         knowledge_points := KPField.arr ["K1".data, "K2".data] }]
      "K2".data "2".data = 0 := by decide

/-- Claim C3 (corrected): a question whose `knowledge_points` is absent or
not an array contributes nothing to the heatmap and is related to no
content item; a question with no `refer` contributes nothing to
`chapterCounts`; a curriculum chapter with no `content` yields no timeline
items. (A question with knowledge points but no `refer` still contributes
to the heatmap, under the `Unknown` chapter column — see the
counterexample.) -/
theorem c3_zero_contribution_amended :
    (∀ (q : Question) (qs : List Question) (kp ch : JStr),
      (q.knowledge_points = KPField.missing ∨
        q.knowledge_points = KPField.notArray) →
      heatmapCell (q :: qs) kp ch = heatmapCell qs kp ch) ∧
    (∀ (q : Question) (content : JStr),
      (q.knowledge_points = KPField.missing ∨
        q.knowledge_points = KPField.notArray) →
      isRelated content q = false) ∧
    (∀ (q : Question) (qs : List Question) (ch : JStr), q.refer = none →
      chapterCounts (q :: qs) ch = chapterCounts qs ch) ∧
    (∀ (chap : CurriculumChapter) (chaps : List CurriculumChapter)
      (qs : List Question), chap.content = none →
      timelineItems (chap :: chaps) qs = timelineItems chaps qs) := by
  refine ⟨?_, ?_, ?_, ?_⟩
  · intro q qs kp ch h
    rw [heatmapCell, List.map_cons, List.sum_cons]
    have hc : heatmapContrib kp ch q = 0 := by
      rcases h with h | h <;> rw [heatmapContrib, h]
    rw [hc, Nat.zero_add]
    rfl
  · intro q content h
    rcases h with h | h <;> rw [isRelated, h]
  · intro q qs ch h
    rw [chapterCounts, List.flatMap_cons, List.count_append]
    have hrc : referChapters q = [] := by rw [referChapters, h]
    rw [hrc]
    simp [chapterCounts]
  · intro chap chaps qs h
    rw [timelineItems, List.flatMap_cons]
    simp only [h]
    rw [List.nil_append]
    rfl

theorem c3_missing_refer_heatmap_counterexample :
    heatmapCell
      [{ type := none, refer := none,
         knowledge_points := KPField.arr ["K1".data] }]
      "K1".data "Unknown".data = 1 := by decide

theorem c3_zero_contribution_amended_witness :
    heatmapCell
      [{ type := none, refer := none, knowledge_points := KPField.missing }]
      "K1".data "Unknown".data =
      heatmapCell [] "K1".data "Unknown".data ∧
    isRelated "Commit".data
      { type := none, refer := none,
        knowledge_points := KPField.notArray } = false ∧
    chapterCounts
      [{ type := none, refer := none, knowledge_points := KPField.missing }]
      "3".data = chapterCounts [] "3".data ∧
    timelineItems
      [{ chapterNumber := "1".data, chapterTitle := "T".data,
         content := none }] [] = timelineItems [] [] :=
  ⟨c3_zero_contribution_amended.1 _ [] _ _ (Or.inl rfl),
   c3_zero_contribution_amended.2.1 _ _ (Or.inr rfl),
   c3_zero_contribution_amended.2.2.1 _ [] _ rfl,
   c3_zero_contribution_amended.2.2.2 _ [] [] rfl⟩

/-- Claim C9: every aggregate is invariant under permutation of the input
question sequence — the type counts, chapter counts, every heatmap cell,
the difficulty buckets, membership of each related-question set, and the
four summary statistics. -/
theorem c9_order_independence (qs1 qs2 : List Question) (h : qs1.Perm qs2) :
    (∀ t, typeCounts qs1 t = typeCounts qs2 t) ∧
    (∀ ch, chapterCounts qs1 ch = chapterCounts qs2 ch) ∧
    (∀ kp ch, heatmapCell qs1 kp ch = heatmapCell qs2 kp ch) ∧
    (∀ lvl, difficultyCount qs1 lvl = difficultyCount qs2 lvl) ∧
    (∀ content q, q ∈ relatedQuestions content qs1 ↔
      q ∈ relatedQuestions content qs2) ∧
    totalQuestions qs1 = totalQuestions qs2 ∧
    uniqueTypes qs1 = uniqueTypes qs2 ∧
    uniqueKnowledgePoints qs1 = uniqueKnowledgePoints qs2 ∧
    chaptersCovered qs1 = chaptersCovered qs2 := by
  refine ⟨?_, ?_, ?_, ?_, ?_, ?_, ?_, ?_, ?_⟩
  · intro t
    exact perm_count_eq (h.map typeKey) t
  · intro ch
    exact perm_count_eq (h.flatMap_right referChapters) ch
  · intro kp ch
    exact (h.map (heatmapContrib kp ch)).sum_eq
  · intro lvl
    exact perm_count_eq (h.map classifyDifficulty) lvl
  · intro content q
    exact (h.filter _).mem_iff
  · exact h.length_eq
  · exact congrArg Finset.card
      (List.toFinset_eq_of_perm _ _ (h.map Question.type))
  · exact congrArg Finset.card
      (List.toFinset_eq_of_perm _ _ (h.flatMap_right kpsOf))
  · exact congrArg Finset.card
      (List.toFinset_eq_of_perm _ _ (h.flatMap_right referChapters))

theorem c9_order_independence_witness :
    typeCounts
      [{ type := some "Essay".data, refer := none,
         knowledge_points := KPField.missing },
       { type := none, refer := none, knowledge_points := KPField.missing }]
      "Essay".data =
    typeCounts
      [{ type := none, refer := none, knowledge_points := KPField.missing },
       { type := some "Essay".data, refer := none,
         knowledge_points := KPField.missing }]
      "Essay".data :=
  (c9_order_independence _ _ (List.Perm.swap _ _ [])).1 "Essay".data
